import Mathlib

/-!
Verification of the retention classifier, watermark resolver, validation and
removal executor of the jenkinsclean workspace cleaner.

The embedding follows src/jenkinsclean.py (v0.2.0).  Compiled regexes are
abstracted to Boolean predicates on directory names; `os.path.getmtime` and
`JenkinsClean.size` are abstracted to functions of the name; sizes, quotas and
timestamps are rationals (Python floats, no rounding involved in the logic);
the filesystem under root is the list of immediate subdirectory names.

Python `sorted(dirs, key=mtime, reverse=True)` is a stable descending sort; we
embed it as an insertion sort with the total preorder "later-or-equal mtime
first", which any stable sort realises identically.

The repository snapshot mixes revisions: src/main.py passes `target_gb`,
`target_percentage` and `quiet` to `JenkinsClean`, parameters the
jenkinsclean.py in the snapshot does not accept.  The newer revision of
`JenkinsClean.clean` those options belong to (size-eviction hysteresis and a
target watermark) is therefore modelled from the spec where a claim needs it;
such definitions say so in their doc comment.
-/

namespace JC

/-- Policy record mirroring the JenkinsClean constructor fields after regex
compilation: `preserve_pattern` and `clean_pattern` model `re.search`
of the compiled patterns as Boolean predicates, present exactly when the
corresponding option is given. -/
structure Config where
  max_workspace : Option Int
  max_gb : Option ℚ
  max_percentage : Option ℚ
  preserve_pattern : Option (String → Bool)
  clean_pattern : Option (String → Bool)
  dry_run : Bool
  force : Bool

/-- Python `x or None` for an optional integer: `None` and `0` are falsy
(jenkinsclean.py line 59). -/
def orNoneInt : Option Int → Option Int
  | none => none
  | some n => if n = 0 then none else some n

/-- Python `x or None` for an optional rational (jenkinsclean.py line 60). -/
def orNoneQ : Option ℚ → Option ℚ
  | none => none
  | some q => if q = 0 then none else some q

/-- Python truthiness of an optional rational. -/
def truthyQ : Option ℚ → Bool
  | none => false
  | some q => decide (q ≠ 0)

/-- Python `self.max_gb and self.max_gb < 0` (line 140). -/
def truthyNegQ : Option ℚ → Bool
  | none => false
  | some g => decide (g ≠ 0) && decide (g < 0)

/-- Python `self.max_percentage and (self.max_percentage < 0 or
self.max_percentage > 100)` (line 143). -/
def truthyOutOfRange : Option ℚ → Bool
  | none => false
  | some p => decide (p ≠ 0) && (decide (p < 0) || decide (p > 100))

/-- Python `self.max_workspace and self.max_workspace < 0` (line 146). -/
def truthyNegInt : Option Int → Bool
  | none => false
  | some n => decide (n ≠ 0) && decide (n < 0)

/-- The first error raised by `JenkinsClean.__validate_args`
(jenkinsclean.py lines 136-147), `none` when validation passes. -/
def validateErr (cfg : Config) : Option String :=
  if !cfg.dry_run && !cfg.force then
    some ("neither -f nor -n given, refusing to clean")
  else if truthyNegQ cfg.max_gb then some ("invalid max_gb")
  else if truthyOutOfRange cfg.max_percentage then some ("invalid max_percentage")
  else if truthyNegInt cfg.max_workspace then some ("invalid max_workspace")
  else none

/-- Python float floor division `a // b`, on rationals. -/
def floorDiv (a b : ℚ) : ℚ := ((a / b).floor : ℤ)

/-- `self.max_size` as computed by `__validate_args` (lines 149-154) from
`max_gb`, `max_percentage` and the total disk capacity in bytes; `none` when
it is left unset. -/
def resolve_max_size (mg mp : Option ℚ) (total : ℚ) : Option ℚ :=
  if truthyQ mg && truthyQ mp then
    some (min (mg.getD 0 * 2 ^ 30) (floorDiv (total * mp.getD 0) 100))
  else if truthyQ mg then some (mg.getD 0 * 2 ^ 30)
  else if truthyQ mp then some (floorDiv (total * mp.getD 0) 100)
  else none

/-- Mutable state of `JenkinsClean.clean` during the pattern pass and the
recency walk: the provisional clean list, the preserve list and the two
remaining quotas. -/
structure PassState where
  to_clean : List String
  to_preserve : List String
  quota_number : Option Int
  quota_size : Option ℚ

/-- The preserve-pattern pass (lines 65-76): every directory matching the
preserve pattern is appended to `to_preserve`, removed from the provisional
`to_clean`, and debited from both quotas. -/
def preservePass (p : String → Bool) (size : String → ℚ) :
    List String → PassState → PassState
  | [], s => s
  | ws :: rest, s =>
    if p ws then
      preservePass p size rest
        { to_clean := s.to_clean.erase ws
          to_preserve := s.to_preserve ++ [ws]
          quota_number := s.quota_number.map (· - 1)
          quota_size := s.quota_size.map (· - size ws) }
    else preservePass p size rest s

/-- The size-quota part of one iteration of the recency walk
(lines 87-92): debit, break when the quota went negative, else preserve.
Returns the updated state and whether the walk breaks here. -/
def stepSize (size : String → ℚ) (ws : String) (s : PassState) :
    PassState × Bool :=
  match s.quota_size with
  | some q =>
    if q - size ws < 0 then ({ s with quota_size := some (q - size ws) }, true)
    else
      ({ s with
          quota_size := some (q - size ws)
          to_preserve := s.to_preserve ++ [ws] }, false)
  | none => ({ s with to_preserve := s.to_preserve ++ [ws] }, false)

/-- One full iteration of the recency walk (lines 82-92): the count quota is
debited and checked first, then the size quota. -/
def step (size : String → ℚ) (ws : String) (s : PassState) :
    PassState × Bool :=
  match s.quota_number with
  | some n =>
    if n - 1 < 0 then ({ s with quota_number := some (n - 1) }, true)
    else stepSize size ws { s with quota_number := some (n - 1) }
  | none => stepSize size ws s

/-- The recency-ordered greedy walk (lines 79-92): directories already in
`to_clean` or `to_preserve` are skipped without consuming quota; otherwise one
`step` runs, and a break ends the walk for good. -/
def mainWalk (size : String → ℚ) : List String → PassState → PassState
  | [], s => s
  | ws :: rest, s =>
    if ws ∈ s.to_clean ∨ ws ∈ s.to_preserve then mainWalk size rest s
    else
      match step size ws s with
      | (s', true) => s'
      | (s', false) => mainWalk size rest s'

/-- `dirs_sorted` (line 62): Python `sorted(dirs, key=mtime, reverse=True)`
as a stable descending sort. -/
def dirsSorted (dirs : List String) (mtime : String → ℚ) : List String :=
  dirs.insertionSort fun a b => mtime b ≤ mtime a

/-- The provisional clean list after the clean-pattern pass
(lines 63-64). -/
def initClean (cleanP : Option (String → Bool)) (dirs : List String) :
    List String :=
  match cleanP with
  | some p => dirs.filter p
  | none => []

/-- The state after both pattern passes (lines 57-76). -/
def afterPatterns (quota_number : Option Int) (quota_size : Option ℚ)
    (preserveP cleanP : Option (String → Bool))
    (dirs : List String) (size : String → ℚ) : PassState :=
  match preserveP with
  | some p => preservePass p size dirs ⟨initClean cleanP dirs, [], quota_number, quota_size⟩
  | none => ⟨initClean cleanP dirs, [], quota_number, quota_size⟩

/-- The state after the recency walk (lines 79-92). -/
def finalState (quota_number : Option Int) (quota_size : Option ℚ)
    (preserveP cleanP : Option (String → Bool))
    (dirs : List String) (mtime size : String → ℚ) : PassState :=
  mainWalk size (dirsSorted dirs mtime)
    (afterPatterns quota_number quota_size preserveP cleanP dirs size)

/-- The classification part of `JenkinsClean.clean` (lines 57-94) with the
quotas already resolved: returns `(to_clean, to_preserve)`, where the final
`to_clean` is rebuilt on line 94 as every sorted directory not preserved. -/
def classifyCore (quota_number : Option Int) (quota_size : Option ℚ)
    (preserveP cleanP : Option (String → Bool))
    (dirs : List String) (mtime size : String → ℚ) :
    List String × List String :=
  ((dirsSorted dirs mtime).filter fun x =>
      decide (x ∉ (finalState quota_number quota_size preserveP cleanP dirs mtime size).to_preserve),
    (finalState quota_number quota_size preserveP cleanP dirs mtime size).to_preserve)

/-- `JenkinsClean.clean` of the snapshot (v0.2.0): quotas come from
`self.max_workspace or None` and `self.max_size or None` (lines 59-60), with
`max_size` resolved from the limits and the disk capacity. -/
def clean (cfg : Config) (total : ℚ) (dirs : List String)
    (mtime size : String → ℚ) : List String × List String :=
  classifyCore (orNoneInt cfg.max_workspace)
    (orNoneQ (resolve_max_size cfg.max_gb cfg.max_percentage total))
    cfg.preserve_pattern cfg.clean_pattern dirs mtime size

/-- `JenkinsClean.rmtree` (lines 122-126) at the level of the set of
workspace directories: a no-op unless forced and not a dry run. -/
def rmtree (dry_run force : Bool) (fs : List String) (ws : String) :
    List String :=
  if dry_run || !force then fs else fs.erase ws

/-- Outcome of one full `clean()` call: the raised validation error if any,
the reported lists, and the resulting set of workspace directories. -/
structure RunResult where
  error : Option String
  to_clean : List String
  to_preserve : List String
  fs : List String
deriving DecidableEq

/-- One full run of `JenkinsClean.clean`: validation first (an error performs
no side effect), then classification, then removal of every `to_clean` entry
(lines 112-113). -/
def runClean (cfg : Config) (total : ℚ) (dirs : List String)
    (mtime size : String → ℚ) : RunResult :=
  match validateErr cfg with
  | some e => ⟨some e, [], [], dirs⟩
  | none =>
    let r := clean cfg total dirs mtime size
    ⟨none, r.1, r.2, r.1.foldl (rmtree cfg.dry_run cfg.force) dirs⟩

/-- Modelled from the spec: the size-eviction activation of the newer
revision of `JenkinsClean.clean` that src/main.py targets (main.py passes
`target_gb` and `target_percentage`, which the jenkinsclean.py in this
snapshot does not accept).  Spec 4.3 step 2: the size path engages only when
`maxBytes` is defined and `usedBytes` exceeds it, and the working quota is
then `targetBytes` if defined, else `maxBytes`. -/
def quotaSizeH (max_size target_size : Option ℚ) (used : ℚ) : Option ℚ :=
  match max_size with
  | none => none
  | some m => if m < used then some (target_size.getD m) else none

/-- Modelled from the spec: classification of the newer revision, identical
to the snapshot classifier except for the hysteresis size-quota activation. -/
def cleanH (max_workspace : Option Int) (max_size target_size : Option ℚ)
    (used : ℚ) (preserveP cleanP : Option (String → Bool))
    (dirs : List String) (mtime size : String → ℚ) :
    List String × List String :=
  classifyCore (orNoneInt max_workspace) (quotaSizeH max_size target_size used)
    preserveP cleanP dirs mtime size

/-- Cumulative computed size of a list of workspaces. -/
def sumSizes (size : String → ℚ) (l : List String) : ℚ := (l.map size).sum

/-- One file inside a workspace subtree, as the removal executor sees it:
whether the first deletion attempt fails, whether `os.access(path, W_OK)`
holds at that point, and whether deletion still fails after
`os.chmod(path, S_IWUSR)`. -/
structure FileEntry where
  name : String
  failFirst : Bool
  writable : Bool
  failRetry : Bool
deriving DecidableEq

/-- State of a removal batch: names removed so far, warnings emitted so far,
and whether an exception has propagated out of `shutil.rmtree`. -/
structure RmState where
  removed : List String
  warnings : List String
  aborted : Bool
deriving DecidableEq

/-- `JenkinsClean.__onexc` (lines 128-134), invoked on a failed deletion: if
the path is not writable, chmod owner-write and retry once — a failing retry
raises out of the handler; otherwise print a warning and return, letting
`shutil.rmtree` continue. -/
def onexcStep (f : FileEntry) (s : RmState) : RmState :=
  if !f.writable then
    if f.failRetry then { s with aborted := true }
    else { s with removed := s.removed ++ [f.name] }
  else { s with warnings := s.warnings ++ [f.name] }

/-- `shutil.rmtree(path, onexc=self.__onexc)` over the files of one
workspace: an exception raised from the handler stops the traversal. -/
def rmtreeFiles : List FileEntry → RmState → RmState
  | [], s => s
  | f :: rest, s =>
    if s.aborted then s
    else if f.failFirst then rmtreeFiles rest (onexcStep f s)
    else rmtreeFiles rest { s with removed := s.removed ++ [f.name] }

/-- The removal loop of `clean()` (lines 112-113) over a batch of workspaces:
an exception propagating out of one `rmtree` call aborts the remaining
workspaces as well, since the loop body does not catch it. -/
def cleanBatch : List (String × List FileEntry) → RmState → RmState
  | [], s => s
  | ws :: rest, s =>
    if s.aborted then s
    else cleanBatch rest (rmtreeFiles ws.2 s)

/-- Files whose deletion ultimately succeeds when every chmod retry
succeeds: either the first attempt succeeds, or the path was not writable
(so the handler retried). -/
def removedNames (files : List FileEntry) : List String :=
  (files.filter fun f => !f.failFirst || !f.writable).map FileEntry.name

/-- Files that fail while writable: the handler only warns about these. -/
def warnedNames (files : List FileEntry) : List String :=
  (files.filter fun f => f.failFirst && f.writable).map FileEntry.name

/-- A file on which the executor cannot raise: it is not the case that the
first attempt fails, the path is non-writable and the retry fails too. -/
def goodFile (f : FileEntry) : Bool := !f.failFirst || f.writable || !f.failRetry

/-- All names removed over a whole batch when every chmod retry succeeds. -/
def batchRemoved (batch : List (String × List FileEntry)) : List String :=
  (batch.map fun ws => removedNames ws.2).flatten

/-- All warnings emitted over a whole batch when every chmod retry
succeeds. -/
def batchWarned (batch : List (String × List FileEntry)) : List String :=
  (batch.map fun ws => warnedNames ws.2).flatten

/-- The byte-budget rule exactly as the spec words it for claim C8, where a
limit counts as given precisely when the option is present, zero included. -/
def specMaxSize (mg mp : Option ℚ) (total : ℚ) : Option ℚ :=
  match mg, mp with
  | some g, some p => some (min (g * 2 ^ 30) (floorDiv (total * p) 100))
  | some g, none => some (g * 2 ^ 30)
  | none, some p => some (floorDiv (total * p) 100)
  | none, none => none

theorem preservePass_to_preserve (p : String → Bool) (size : String → ℚ) :
    ∀ (l : List String) (s : PassState),
      (preservePass p size l s).to_preserve = s.to_preserve ++ l.filter p := by
  intro l
  induction l with
  | nil => intro s; simp [preservePass]
  | cons ws rest ih =>
    intro s
    by_cases h : p ws
    · simp [preservePass, h, ih, List.filter_cons]
    · simp [preservePass, h, ih, List.filter_cons]

theorem preservePass_to_clean_mem (p : String → Bool) (size : String → ℚ)
    (x : String) (hx : p x = false) :
    ∀ (l : List String) (s : PassState), x ∈ s.to_clean →
      x ∈ (preservePass p size l s).to_clean := by
  intro l
  induction l with
  | nil => intro s hs; simpa [preservePass] using hs
  | cons ws rest ih =>
    intro s hs
    by_cases h : p ws
    · have hne : x ≠ ws := by
        intro he
        rw [he, h] at hx
        exact absurd hx (by decide)
      simp only [preservePass, h, if_pos]
      exact ih _ ((List.mem_erase_of_ne hne).mpr hs)
    · simp only [preservePass, h]
      simpa using ih s hs

theorem stepSize_to_clean (size : String → ℚ) (ws : String) (s : PassState) :
    ((stepSize size ws s).1).to_clean = s.to_clean := by
  cases hq : s.quota_size <;> simp only [stepSize, hq]
  split <;> rfl

theorem step_to_clean (size : String → ℚ) (ws : String) (s : PassState) :
    ((step size ws s).1).to_clean = s.to_clean := by
  cases hn : s.quota_number <;> simp only [step, hn]
  · exact stepSize_to_clean size ws s
  · split
    · rfl
    · exact stepSize_to_clean size ws _

theorem step_spec (size : String → ℚ) (ws : String) (s : PassState) :
    ((step size ws s).2 = true ∧ (step size ws s).1.to_preserve = s.to_preserve)
    ∨ ((step size ws s).2 = false
       ∧ (step size ws s).1.to_preserve = s.to_preserve ++ [ws]
       ∧ (s.quota_size = none → (step size ws s).1.quota_size = none)
       ∧ ∀ q : ℚ, s.quota_size = some q →
           (step size ws s).1.quota_size = some (q - size ws)
           ∧ 0 ≤ q - size ws) := by
  cases hn : s.quota_number <;> simp only [step, hn]
  · cases hq : s.quota_size <;> simp only [stepSize, hq]
    · right
      simp
    · split
      · left
        simp
      · rename_i hlt
        right
        refine ⟨rfl, rfl, by simp, ?_⟩
        intro q hq2
        cases Option.some.inj hq2
        exact ⟨rfl, le_of_not_lt hlt⟩
  · split
    · left
      simp
    · cases hq : s.quota_size <;> simp only [stepSize, hq]
      · right
        simp
      · split
        · left
          simp
        · rename_i hlt
          right
          refine ⟨rfl, rfl, by simp, ?_⟩
          intro q hq2
          cases Option.some.inj hq2
          exact ⟨rfl, le_of_not_lt hlt⟩

theorem mainWalk_to_clean (size : String → ℚ) :
    ∀ (l : List String) (s : PassState),
      (mainWalk size l s).to_clean = s.to_clean := by
  intro l
  induction l with
  | nil => intro s; rfl
  | cons ws rest ih =>
    intro s
    by_cases hmem : ws ∈ s.to_clean ∨ ws ∈ s.to_preserve
    · simp only [mainWalk, if_pos hmem]
      exact ih s
    · simp only [mainWalk, if_neg hmem]
      rcases hst : step size ws s with ⟨s', b⟩
      have hc : s'.to_clean = s.to_clean := by
        have := step_to_clean size ws s
        rw [hst] at this
        exact this
      cases b
      · simpa using (ih s').trans hc
      · simpa using hc

theorem mainWalk_to_preserve_mono (size : String → ℚ) (x : String) :
    ∀ (l : List String) (s : PassState), x ∈ s.to_preserve →
      x ∈ (mainWalk size l s).to_preserve := by
  intro l
  induction l with
  | nil => intro s hs; exact hs
  | cons ws rest ih =>
    intro s hs
    by_cases hmem : ws ∈ s.to_clean ∨ ws ∈ s.to_preserve
    · simp only [mainWalk, if_pos hmem]
      exact ih s hs
    · simp only [mainWalk, if_neg hmem]
      rcases hst : step size ws s with ⟨s', b⟩
      have hx : x ∈ s'.to_preserve := by
        rcases step_spec size ws s with ⟨_, htp⟩ | ⟨_, htp, _, _⟩ <;>
          rw [hst] at htp <;> simp only at htp <;> rw [htp] <;> simp [hs]
      cases b
      · simpa using ih s' hx
      · simpa using hx

theorem mainWalk_to_preserve_sub (size : String → ℚ) (x : String) :
    ∀ (l : List String) (s : PassState),
      x ∈ (mainWalk size l s).to_preserve → x ∈ s.to_preserve ∨ x ∈ l := by
  intro l
  induction l with
  | nil => intro s hs; exact Or.inl hs
  | cons ws rest ih =>
    intro s hs
    by_cases hmem : ws ∈ s.to_clean ∨ ws ∈ s.to_preserve
    · rw [mainWalk, if_pos hmem] at hs
      rcases ih s hs with h | h
      · exact Or.inl h
      · exact Or.inr (List.mem_cons_of_mem _ h)
    · rw [mainWalk, if_neg hmem] at hs
      rcases hst : step size ws s with ⟨s', b⟩
      rw [hst] at hs
      have key : x ∈ s'.to_preserve → x ∈ s.to_preserve ∨ x = ws := by
        intro hx
        rcases step_spec size ws s with ⟨_, htp⟩ | ⟨_, htp, _, _⟩ <;>
          rw [hst] at htp <;> simp only at htp <;> rw [htp] at hx
        · exact Or.inl hx
        · simpa using hx
      cases b
      · simp only at hs
        rcases ih s' hs with h | h
        · rcases key h with h2 | h2
          · exact Or.inl h2
          · exact Or.inr (h2 ▸ List.mem_cons_self _ _)
        · exact Or.inr (List.mem_cons_of_mem _ h)
      · simp only at hs
        rcases key hs with h2 | h2
        · exact Or.inl h2
        · exact Or.inr (h2 ▸ List.mem_cons_self _ _)

theorem mainWalk_clean_not_preserved (size : String → ℚ) (x : String) :
    ∀ (l : List String) (s : PassState), x ∈ s.to_clean → x ∉ s.to_preserve →
      x ∉ (mainWalk size l s).to_preserve := by
  intro l
  induction l with
  | nil => intro s _ hp; exact hp
  | cons ws rest ih =>
    intro s hc hp
    by_cases hmem : ws ∈ s.to_clean ∨ ws ∈ s.to_preserve
    · simp only [mainWalk, if_pos hmem]
      exact ih s hc hp
    · simp only [mainWalk, if_neg hmem]
      rcases hst : step size ws s with ⟨s', b⟩
      have hws : ws ∉ s.to_clean := fun h => hmem (Or.inl h)
      have hne : x ≠ ws := fun he => hws (he ▸ hc)
      have hp' : x ∉ s'.to_preserve := by
        rcases step_spec size ws s with ⟨_, htp⟩ | ⟨_, htp, _, _⟩ <;>
          rw [hst] at htp <;> simp only at htp <;> rw [htp]
        · exact hp
        · simp [hp, hne]
      have hc' : x ∈ s'.to_clean := by
        have := step_to_clean size ws s
        rw [hst] at this
        simp only at this
        rw [this]
        exact hc
      cases b
      · simpa using ih s' hc' hp'
      · simpa using hp'

theorem sumSizes_append (size : String → ℚ) (l : List String) (x : String) :
    sumSizes size (l ++ [x]) = sumSizes size l + size x := by
  simp [sumSizes]

theorem mainWalk_sumSizes (size : String → ℚ) :
    ∀ (l : List String) (s : PassState) (q : ℚ),
      s.quota_size = some q → 0 ≤ q →
      sumSizes size (mainWalk size l s).to_preserve
        ≤ sumSizes size s.to_preserve + q := by
  intro l
  induction l with
  | nil =>
    intro s q hq h0
    simp only [mainWalk]
    linarith
  | cons ws rest ih =>
    intro s q hq h0
    by_cases hmem : ws ∈ s.to_clean ∨ ws ∈ s.to_preserve
    · simp only [mainWalk, if_pos hmem]
      exact ih s q hq h0
    · simp only [mainWalk, if_neg hmem]
      rcases hst : step size ws s with ⟨s', b⟩
      rcases step_spec size ws s with ⟨hb, htp⟩ | ⟨hb, htp, _, hsome⟩ <;>
        rw [hst] at hb htp
      · simp only at hb htp
        cases hb
        simp only
        rw [htp]
        linarith
      · rw [hst] at hsome
        simp only at hb htp hsome
        cases hb
        simp only
        rcases hsome q hq with ⟨hq2, hge⟩
        have := ih s' (q - size ws) hq2 hge
        rw [htp, sumSizes_append] at this
        linarith

theorem afterPatterns_to_preserve (qn : Option Int) (qs : Option ℚ)
    (pP cP : Option (String → Bool)) (dirs : List String) (size : String → ℚ) :
    (afterPatterns qn qs pP cP dirs size).to_preserve
      = match pP with
        | some p => dirs.filter p
        | none => [] := by
  cases pP <;> simp [afterPatterns, preservePass_to_preserve]

theorem classify_snd (qn : Option Int) (qs : Option ℚ)
    (pP cP : Option (String → Bool)) (dirs : List String)
    (mtime size : String → ℚ) :
    (classifyCore qn qs pP cP dirs mtime size).2
      = (finalState qn qs pP cP dirs mtime size).to_preserve := rfl

theorem mem_classify_fst (qn : Option Int) (qs : Option ℚ)
    (pP cP : Option (String → Bool)) (dirs : List String)
    (mtime size : String → ℚ) (x : String) :
    x ∈ (classifyCore qn qs pP cP dirs mtime size).1
      ↔ x ∈ dirs ∧ x ∉ (finalState qn qs pP cP dirs mtime size).to_preserve := by
  simp [classifyCore, dirsSorted, List.mem_filter, List.mem_insertionSort]

theorem finalState_to_preserve_sub (qn : Option Int) (qs : Option ℚ)
    (pP cP : Option (String → Bool)) (dirs : List String)
    (mtime size : String → ℚ) (x : String)
    (h : x ∈ (finalState qn qs pP cP dirs mtime size).to_preserve) :
    x ∈ dirs := by
  rcases mainWalk_to_preserve_sub size x _ _ h with h1 | h1
  · rw [afterPatterns_to_preserve] at h1
    cases pP with
    | none => simp at h1
    | some p => exact (List.mem_filter.mp h1).1
  · exact (List.mem_insertionSort _).mp h1

theorem rmtree_noop (dry force : Bool) (h : dry = true ∨ force = false)
    (fs : List String) (ws : String) : rmtree dry force fs ws = fs := by
  rcases h with h | h <;> simp [rmtree, h]

theorem foldl_rmtree_noop (dry force : Bool) (h : dry = true ∨ force = false) :
    ∀ (l : List String) (fs : List String), l.foldl (rmtree dry force) fs = fs := by
  intro l
  induction l with
  | nil => intro fs; rfl
  | cons a rest ih =>
    intro fs
    rw [List.foldl_cons, rmtree_noop dry force h]
    exact ih fs

theorem rmtreeFiles_good :
    ∀ (files : List FileEntry) (s : RmState),
      (∀ f ∈ files, goodFile f = true) → s.aborted = false →
      rmtreeFiles files s
        = ⟨s.removed ++ removedNames files, s.warnings ++ warnedNames files,
            false⟩ := by
  intro files
  induction files with
  | nil =>
    intro s _ hs
    cases s
    simp_all [rmtreeFiles, removedNames, warnedNames]
  | cons f rest ih =>
    intro s h hs
    have hgood := h f (List.mem_cons_self f rest)
    have hrest : ∀ g ∈ rest, goodFile g = true :=
      fun g hg => h g (List.mem_cons_of_mem f hg)
    by_cases hff : f.failFirst = true
    · by_cases hw : f.writable = true
      · simp [rmtreeFiles, hs, hff, onexcStep, hw,
          ih _ hrest, removedNames, warnedNames, List.filter_cons]
      · have hfr : f.failRetry = false := by
          simp [goodFile, hff, hw] at hgood
          exact hgood
        simp [rmtreeFiles, hs, hff, onexcStep, hw, hfr,
          ih _ hrest, removedNames, warnedNames, List.filter_cons]
    · simp [rmtreeFiles, hs, hff, ih _ hrest, removedNames, warnedNames,
        List.filter_cons]

theorem cleanBatch_good :
    ∀ (batch : List (String × List FileEntry)) (s : RmState),
      (∀ ws ∈ batch, ∀ f ∈ ws.2, goodFile f = true) → s.aborted = false →
      cleanBatch batch s
        = ⟨s.removed ++ batchRemoved batch, s.warnings ++ batchWarned batch,
            false⟩ := by
  intro batch
  induction batch with
  | nil =>
    intro s _ hs
    cases s
    simp_all [cleanBatch, batchRemoved, batchWarned]
  | cons ws rest ih =>
    intro s h hs
    have hws := h ws (List.mem_cons_self ws rest)
    have hrest : ∀ w ∈ rest, ∀ f ∈ w.2, goodFile f = true :=
      fun w hw => h w (List.mem_cons_of_mem ws hw)
    simp only [cleanBatch, hs, if_neg]
    rw [rmtreeFiles_good ws.2 s hws hs, ih _ hrest rfl]
    simp [batchRemoved, batchWarned]

theorem ratFloor_eq (q : ℚ) : q.floor = ⌊q⌋ := by
  rw [Rat.floor_def', Rat.floor_def]

theorem floorDiv_floor (a b : ℚ) : floorDiv a b = ((⌊a / b⌋ : ℤ) : ℚ) := by
  rw [floorDiv, ratFloor_eq]

theorem truthyNegQ_iff (o : Option ℚ) :
    truthyNegQ o = true ↔ ∃ g, o = some g ∧ g < 0 := by
  cases o with
  | none => simp [truthyNegQ]
  | some g =>
    simp only [truthyNegQ, Bool.and_eq_true, decide_eq_true_eq,
      Option.some.injEq]
    constructor
    · rintro ⟨_, h2⟩
      exact ⟨g, rfl, h2⟩
    · rintro ⟨g2, rfl, h2⟩
      exact ⟨ne_of_lt h2, h2⟩

theorem truthyOutOfRange_iff (o : Option ℚ) :
    truthyOutOfRange o = true ↔ ∃ p, o = some p ∧ (p < 0 ∨ 100 < p) := by
  cases o with
  | none => simp [truthyOutOfRange]
  | some p =>
    simp only [truthyOutOfRange, Bool.and_eq_true, Bool.or_eq_true,
      decide_eq_true_eq, Option.some.injEq]
    constructor
    · rintro ⟨_, h2 | h2⟩
      · exact ⟨p, rfl, Or.inl h2⟩
      · exact ⟨p, rfl, Or.inr h2⟩
    · rintro ⟨p2, rfl, h2 | h2⟩
      · exact ⟨ne_of_lt h2, Or.inl h2⟩
      · exact ⟨ne_of_gt (lt_trans (by norm_num) h2), Or.inr h2⟩

theorem truthyNegInt_iff (o : Option Int) :
    truthyNegInt o = true ↔ ∃ n, o = some n ∧ n < 0 := by
  cases o with
  | none => simp [truthyNegInt]
  | some n =>
    simp only [truthyNegInt, Bool.and_eq_true, decide_eq_true_eq,
      Option.some.injEq]
    constructor
    · rintro ⟨_, h2⟩
      exact ⟨n, rfl, h2⟩
    · rintro ⟨n2, rfl, h2⟩
      exact ⟨ne_of_lt h2, h2⟩

/-- C1: for every run of the classification, the final to_clean and
to_preserve lists partition the immediate subdirectories of root exactly: a
directory is in to_clean iff it is a candidate not in to_preserve, and
to_preserve holds candidates only, so nothing is in both and every candidate
is in exactly one. -/
theorem clean_partitions (cfg : Config) (total : ℚ) (dirs : List String)
    (mtime size : String → ℚ) (x : String) :
    (x ∈ (clean cfg total dirs mtime size).1
      ↔ x ∈ dirs ∧ x ∉ (clean cfg total dirs mtime size).2)
    ∧ (x ∈ (clean cfg total dirs mtime size).2 → x ∈ dirs) := by
  constructor
  · rw [clean, classify_snd]
    exact mem_classify_fst _ _ _ _ dirs mtime size x
  · rw [clean, classify_snd]
    exact finalState_to_preserve_sub _ _ _ _ dirs mtime size x

theorem clean_partitions_witness :
    ("a" ∈ (clean ⟨none, none, none, none, none, true, false⟩ 0 ["a"]
        (fun _ => 0) (fun _ => 0)).1
      ↔ "a" ∈ ["a"] ∧ "a" ∉ (clean ⟨none, none, none, none, none, true, false⟩
         0 ["a"] (fun _ => 0) (fun _ => 0)).2)
    ∧ ("a" ∈ (clean ⟨none, none, none, none, none, true, false⟩ 0 ["a"]
        (fun _ => 0) (fun _ => 0)).2 → "a" ∈ ["a"]) :=
  clean_partitions ⟨none, none, none, none, none, true, false⟩ 0 ["a"]
    (fun _ => 0) (fun _ => 0) "a"

/-- C2: a workspace whose name matches the preserve pattern ends in
to_preserve and never in to_clean, for every count quota, size quota and
clean pattern — the preserve pattern has absolute priority. -/
theorem preserve_pattern_priority (qn : Option Int) (qs : Option ℚ)
    (p : String → Bool) (cP : Option (String → Bool)) (dirs : List String)
    (mtime size : String → ℚ) (x : String) (hx : x ∈ dirs) (hp : p x = true) :
    x ∈ (classifyCore qn qs (some p) cP dirs mtime size).2
    ∧ x ∉ (classifyCore qn qs (some p) cP dirs mtime size).1 := by
  have h1 : x ∈ (afterPatterns qn qs (some p) cP dirs size).to_preserve := by
    rw [afterPatterns_to_preserve]
    exact List.mem_filter.mpr ⟨hx, hp⟩
  have h2 : x ∈ (finalState qn qs (some p) cP dirs mtime size).to_preserve :=
    mainWalk_to_preserve_mono size x _ _ h1
  refine ⟨h2, fun hmem => ?_⟩
  exact ((mem_classify_fst qn qs (some p) cP dirs mtime size x).mp hmem).2 h2

theorem preserve_pattern_priority_witness :
    "tmp-x" ∈ (classifyCore none none (some fun s => s == "tmp-x")
        (some fun s => s == "tmp-x") ["tmp-x"] (fun _ => 0) (fun _ => 0)).2
    ∧ "tmp-x" ∉ (classifyCore none none (some fun s => s == "tmp-x")
        (some fun s => s == "tmp-x") ["tmp-x"] (fun _ => 0) (fun _ => 0)).1 :=
  preserve_pattern_priority none none (fun s => s == "tmp-x")
    (some fun s => s == "tmp-x") ["tmp-x"] (fun _ => 0) (fun _ => 0) "tmp-x"
    (by decide) (by decide)

/-- C3: size-based eviction engages only when a max byte budget is defined
and the used bytes exceed it; with the budget set but used bytes at most the
budget, the classification equals one run with no size quota at all, so no
workspace is cleaned on account of size.  The hysteresis activation is
modelled from the spec, since the revision of clean() carrying it is not in
this snapshot. -/
theorem size_eviction_requires_overflow (maxw : Option Int) (m : ℚ)
    (tgt : Option ℚ) (used : ℚ) (h : used ≤ m)
    (pP cP : Option (String → Bool)) (dirs : List String)
    (mtime size : String → ℚ) :
    cleanH maxw (some m) tgt used pP cP dirs mtime size
      = classifyCore (orNoneInt maxw) none pP cP dirs mtime size := by
  simp only [cleanH, quotaSizeH, if_neg (not_lt.mpr h)]

theorem size_eviction_requires_overflow_witness :
    cleanH (some 1) (some 10) (some 3) 5 none none ["a"] (fun _ => 0)
        (fun _ => 100)
      = classifyCore (orNoneInt (some 1)) none none none ["a"] (fun _ => 0)
        (fun _ => 100) :=
  size_eviction_requires_overflow (some 1) 10 (some 3) 5 (by norm_num)
    none none ["a"] (fun _ => 0) (fun _ => 100)

/-- C4 counterexample: with size eviction active (max 50, target 10,
used 60) and a preserve pattern matching both workspaces of size 100, the
cumulative size of to_preserve is 200, exceeding the claimed bound of
target plus one workspace of overshoot (10 + 100). -/
theorem target_budget_bound_cex :
    sumSizes (fun _ => 100)
        (cleanH none (some 50) (some 10) 60 (some fun _ => true) none
          ["a", "b"] (fun _ => 0) (fun _ => 100)).2 = 200
    ∧ ¬ sumSizes (fun _ => 100)
        (cleanH none (some 50) (some 10) 60 (some fun _ => true) none
          ["a", "b"] (fun _ => 0) (fun _ => 100)).2 ≤ 10 + 100 := by
  have h : (cleanH none (some 50) (some 10) 60 (some fun _ => true) none
      ["a", "b"] (fun _ => 0) (fun _ => 100)).2 = ["a", "b"] := rfl
  rw [h]
  constructor
  · norm_num [sumSizes]
  · norm_num [sumSizes]

/-- C4 (amended): when size eviction is active the working quota is the
target when defined (else the max), and — provided no preserve pattern is
configured, since pattern-preserved workspaces debit the quota but are kept
unconditionally and can exceed any bound — the cumulative size of
to_preserve stays within the target, with no overshoot at all because the
stopping check runs after debiting and before preserving. -/
theorem target_budget_bound (maxw : Option Int) (m t used : ℚ)
    (_htm : t < m) (hover : m < used) (ht : 0 ≤ t)
    (cP : Option (String → Bool)) (dirs : List String)
    (mtime size : String → ℚ) :
    quotaSizeH (some m) (some t) used = some t
    ∧ sumSizes size
        (cleanH maxw (some m) (some t) used none cP dirs mtime size).2 ≤ t := by
  have hq : quotaSizeH (some m) (some t) used = some t := by
    simp [quotaSizeH, hover]
  refine ⟨hq, ?_⟩
  rw [cleanH, classify_snd, hq, finalState]
  have key := mainWalk_sumSizes size (dirsSorted dirs mtime)
    (afterPatterns (orNoneInt maxw) (some t) none cP dirs size) t rfl ht
  rw [afterPatterns_to_preserve] at key
  simpa [sumSizes] using key

theorem target_budget_bound_witness :
    quotaSizeH (some 50) (some 10) 60 = some 10
    ∧ sumSizes (fun _ => 100)
        (cleanH none (some 50) (some 10) 60 none none ["a", "b"]
          (fun _ => 0) (fun _ => 100)).2 ≤ 10 :=
  target_budget_bound none 50 10 60 (by norm_num) (by norm_num) (by norm_num)
    none ["a", "b"] (fun _ => 0) (fun _ => 100)

/-- C5: evaluating the snapshot code at max_workspace 0 with a single
workspace, no pattern and no size limit: `self.max_workspace or None` treats
the configured zero as unset, so the run preserves the workspace and cleans
nothing, where the claim requires every candidate to be cleaned. -/
theorem max_workspace_zero_eval :
    runClean ⟨some 0, none, none, none, none, true, false⟩ 0 ["a"]
      (fun _ => 0) (fun _ => 0) = ⟨none, [], ["a"], ["a"]⟩ := rfl

/-- C6 counterexample: a workspace with one non-writable file whose
post-chmod retry also fails.  The handler raises instead of warning: the run
aborts with no warning emitted, and the sibling workspace's file "g1" is
never removed — refuting "emit a non-fatal warning and continue with the
rest of the batch". -/
theorem removal_retry_aborts_cex :
    cleanBatch [("w1", [⟨"f1", true, false, true⟩]),
        ("w2", [⟨"g1", false, true, false⟩])] ⟨[], [], false⟩
      = ⟨[], [], true⟩
    ∧ "g1" ∉ (cleanBatch [("w1", [⟨"f1", true, false, true⟩]),
        ("w2", [⟨"g1", false, true, false⟩])] ⟨[], [], false⟩).removed := by
  exact ⟨rfl, by decide⟩

/-- C6 (amended): on a per-file failure the executor chmods and retries once
when the path lacks write permission, and warns and continues when the path
is writable; provided every such retry succeeds, the whole batch completes
without aborting, removing exactly the files that succeed directly or after
the retry and warning exactly on the writable failures.  A failing retry,
however, raises out of the handler and aborts the rest of the subtree and
the remaining sibling workspaces. -/
theorem removal_onexc_behavior (batch : List (String × List FileEntry))
    (h : ∀ ws ∈ batch, ∀ f ∈ ws.2, goodFile f = true) :
    cleanBatch batch ⟨[], [], false⟩
      = ⟨batchRemoved batch, batchWarned batch, false⟩ := by
  simpa using cleanBatch_good batch ⟨[], [], false⟩ h rfl

theorem removal_onexc_behavior_witness :
    cleanBatch [("w1", [⟨"f1", true, false, false⟩, ⟨"f2", true, true, false⟩]),
        ("w2", [⟨"g1", false, true, false⟩])] ⟨[], [], false⟩
      = ⟨batchRemoved [("w1", [⟨"f1", true, false, false⟩, ⟨"f2", true, true, false⟩]),
            ("w2", [⟨"g1", false, true, false⟩])],
          batchWarned [("w1", [⟨"f1", true, false, false⟩, ⟨"f2", true, true, false⟩]),
            ("w2", [⟨"g1", false, true, false⟩])], false⟩ :=
  removal_onexc_behavior
    [("w1", [⟨"f1", true, false, false⟩, ⟨"f2", true, true, false⟩]),
      ("w2", [⟨"g1", false, true, false⟩])] (by decide)

/-- C7: validation raises an error exactly when a numeric limit is negative,
a percentage is outside zero to one hundred, or neither dry_run nor force is
set; and a raised error fails the whole run with zero side effects — the
reported lists are empty and the filesystem is returned unchanged. -/
theorem validate_args_iff (cfg : Config) :
    ((validateErr cfg).isSome ↔
      ((cfg.dry_run = false ∧ cfg.force = false)
        ∨ (∃ g, cfg.max_gb = some g ∧ g < 0)
        ∨ (∃ p, cfg.max_percentage = some p ∧ (p < 0 ∨ 100 < p))
        ∨ (∃ n, cfg.max_workspace = some n ∧ n < 0)))
    ∧ ∀ (total : ℚ) (dirs : List String) (mtime size : String → ℚ)
        (e : String), validateErr cfg = some e →
        runClean cfg total dirs mtime size = ⟨some e, [], [], dirs⟩ := by
  constructor
  · rw [validateErr]
    split_ifs with h1 h2 h3 h4
    · simp only [Option.isSome_some, true_iff]
      left
      simpa [Bool.and_eq_true, Bool.not_eq_true'] using h1
    · simp only [Option.isSome_some, true_iff]
      exact Or.inr (Or.inl ((truthyNegQ_iff _).mp h2))
    · simp only [Option.isSome_some, true_iff]
      exact Or.inr (Or.inr (Or.inl ((truthyOutOfRange_iff _).mp h3)))
    · simp only [Option.isSome_some, true_iff]
      exact Or.inr (Or.inr (Or.inr ((truthyNegInt_iff _).mp h4)))
    · simp only [Option.isSome_none, Bool.false_eq_true, false_iff]
      rintro (⟨hd, hf⟩ | hg | hp | hn)
      · exact h1 (by simp [hd, hf])
      · exact h2 ((truthyNegQ_iff _).mpr hg)
      · exact h3 ((truthyOutOfRange_iff _).mpr hp)
      · exact h4 ((truthyNegInt_iff _).mpr hn)
  · intro total dirs mtime size e he
    simp [runClean, he]

theorem validate_args_iff_witness :
    ((validateErr ⟨none, none, none, none, none, false, false⟩).isSome ↔
      (((⟨none, none, none, none, none, false, false⟩ : Config).dry_run = false
          ∧ (⟨none, none, none, none, none, false, false⟩ : Config).force = false)
        ∨ (∃ g, (⟨none, none, none, none, none, false, false⟩ : Config).max_gb
              = some g ∧ g < 0)
        ∨ (∃ p, (⟨none, none, none, none, none, false, false⟩ : Config).max_percentage
              = some p ∧ (p < 0 ∨ 100 < p))
        ∨ (∃ n, (⟨none, none, none, none, none, false, false⟩ : Config).max_workspace
              = some n ∧ n < 0)))
    ∧ runClean ⟨none, none, none, none, none, false, false⟩ 0 ["a"]
        (fun _ => 0) (fun _ => 0)
      = ⟨some ("neither -f nor -n given, refusing to clean"), [], [], ["a"]⟩ :=
  ⟨(validate_args_iff ⟨none, none, none, none, none, false, false⟩).1,
    (validate_args_iff ⟨none, none, none, none, none, false, false⟩).2 0 ["a"]
      (fun _ => 0) (fun _ => 0) ("neither -f nor -n given, refusing to clean") rfl⟩

/-- C8 counterexample: with the absolute limit configured as zero and the
percentage as fifty on a one-GiB disk, the code takes the percentage-only
branch because zero is falsy, yielding half a GiB, while the claimed rule
"both given, zero included, take the min" yields zero. -/
theorem byte_budget_zero_cex :
    resolve_max_size (some 0) (some 50) (2 ^ 30) = some (2 ^ 29)
    ∧ specMaxSize (some 0) (some 50) (2 ^ 30) = some 0
    ∧ resolve_max_size (some 0) (some 50) (2 ^ 30)
        ≠ specMaxSize (some 0) (some 50) (2 ^ 30) := by
  have hf : floorDiv ((2 : ℚ) ^ 30 * 50) 100 = 2 ^ 29 := by
    rw [floorDiv_floor]
    have h : ((2 : ℚ) ^ 30 * 50 / 100) = ((2 ^ 29 : ℤ) : ℚ) := by norm_num
    rw [h, Int.floor_intCast]
    norm_num
  have e1 : resolve_max_size (some 0) (some 50) (2 ^ 30) = some (2 ^ 29) := by
    simp [resolve_max_size, truthyQ, hf]
  have e2 : specMaxSize (some 0) (some 50) (2 ^ 30) = some 0 := by
    show some (min ((0 : ℚ) * 2 ^ 30) (floorDiv ((2 : ℚ) ^ 30 * 50) 100)) = some 0
    rw [hf]
    norm_num [min_eq_left]
  refine ⟨e1, e2, ?_⟩
  rw [e1, e2]
  simp only [ne_eq, Option.some.injEq]
  norm_num

/-- C8 (amended): the code's byte-budget rule is the spec's rule after
reinterpreting "given" as "given and nonzero": a limit supplied as zero is
falsy in Python and is handled as if it were absent. -/
theorem byte_budget_truthiness (mg mp : Option ℚ) (total : ℚ) :
    resolve_max_size mg mp total = specMaxSize (orNoneQ mg) (orNoneQ mp) total := by
  cases mg with
  | none =>
    cases mp with
    | none => rfl
    | some p =>
      by_cases hp : p = 0 <;>
        simp [resolve_max_size, specMaxSize, orNoneQ, truthyQ, hp]
  | some g =>
    cases mp with
    | none =>
      by_cases hg : g = 0 <;>
        simp [resolve_max_size, specMaxSize, orNoneQ, truthyQ, hg]
    | some p =>
      by_cases hg : g = 0 <;> by_cases hp : p = 0 <;>
        simp [resolve_max_size, specMaxSize, orNoneQ, truthyQ, hg, hp]

/-- C9: with dry_run true or force false the removal primitive leaves the
filesystem untouched for every path handed to it, the full run returns the
directory set unchanged, and with dry_run true the reported to_clean is
computed identically to a live (force, non-dry) run. -/
theorem dry_run_no_removal (cfg : Config) (total : ℚ) (dirs : List String)
    (mtime size : String → ℚ) (fs : List String) (ws : String)
    (h : cfg.dry_run = true ∨ cfg.force = false) :
    rmtree cfg.dry_run cfg.force fs ws = fs
    ∧ (runClean cfg total dirs mtime size).fs = dirs
    ∧ (cfg.dry_run = true →
        (runClean cfg total dirs mtime size).to_clean
          = (runClean { cfg with dry_run := false, force := true }
              total dirs mtime size).to_clean) := by
  refine ⟨rmtree_noop _ _ h fs ws, ?_, ?_⟩
  · cases hv : validateErr cfg with
    | some e => simp [runClean, hv]
    | none => simp [runClean, hv, foldl_rmtree_noop _ _ h]
  · intro hdry
    have hval : validateErr { cfg with dry_run := false, force := true }
        = validateErr cfg := by
      simp [validateErr, hdry]
    cases hv : validateErr cfg with
    | some e =>
      rw [hv] at hval
      simp [runClean, hv, hval]
    | none =>
      rw [hv] at hval
      simp only [runClean, hv, hval]
      rfl

theorem dry_run_no_removal_witness :
    rmtree true true ["a"] "a" = ["a"]
    ∧ (runClean ⟨none, none, none, none, none, true, true⟩ 0 ["a"]
        (fun _ => 0) (fun _ => 0)).fs = ["a"]
    ∧ (runClean ⟨none, none, none, none, none, true, true⟩ 0 ["a"]
        (fun _ => 0) (fun _ => 0)).to_clean
      = (runClean ⟨none, none, none, none, none, false, true⟩ 0 ["a"]
          (fun _ => 0) (fun _ => 0)).to_clean := by
  have h := dry_run_no_removal ⟨none, none, none, none, none, true, true⟩ 0
    ["a"] (fun _ => 0) (fun _ => 0) ["a"] "a" (Or.inl rfl)
  exact ⟨h.1, h.2.1, h.2.2 rfl⟩

/-- C10: a workspace matching the clean pattern and not the preserve pattern
is always in the final to_clean and never in to_preserve, whatever the count
and size quotas: the recency walk skips provisional clean-pattern matches,
so leftover budget can never rescue them. -/
theorem clean_pattern_binding (qn : Option Int) (qs : Option ℚ)
    (pP : Option (String → Bool)) (c : String → Bool) (dirs : List String)
    (mtime size : String → ℚ) (x : String) (hx : x ∈ dirs) (hc : c x = true)
    (hp : ∀ p, pP = some p → p x = false) :
    x ∈ (classifyCore qn qs pP (some c) dirs mtime size).1
    ∧ x ∉ (classifyCore qn qs pP (some c) dirs mtime size).2 := by
  have h0 : x ∈ initClean (some c) dirs := List.mem_filter.mpr ⟨hx, hc⟩
  have h1 : x ∈ (afterPatterns qn qs pP (some c) dirs size).to_clean := by
    cases pP with
    | none => exact h0
    | some p => exact preservePass_to_clean_mem p size x (hp p rfl) dirs _ h0
  have h2 : x ∉ (afterPatterns qn qs pP (some c) dirs size).to_preserve := by
    rw [afterPatterns_to_preserve]
    cases pP with
    | none => simp
    | some p =>
      intro hmem
      have := (List.mem_filter.mp hmem).2
      rw [hp p rfl] at this
      exact absurd this (by decide)
  have h3 : x ∉ (finalState qn qs pP (some c) dirs mtime size).to_preserve :=
    mainWalk_clean_not_preserved size x _ _ h1 h2
  refine ⟨?_, fun hmem => h3 (by rwa [classify_snd] at hmem)⟩
  rw [mem_classify_fst]
  exact ⟨hx, h3⟩

theorem clean_pattern_binding_witness :
    "tmp" ∈ (classifyCore none none (some fun s => s == "keep")
        (fun s => s == "tmp") ["tmp", "keep"] (fun _ => 0) (fun _ => 0)).1
    ∧ "tmp" ∉ (classifyCore none none (some fun s => s == "keep")
        (fun s => s == "tmp") ["tmp", "keep"] (fun _ => 0) (fun _ => 0)).2 :=
  clean_pattern_binding none none (some fun s => s == "keep")
    (fun s => s == "tmp") ["tmp", "keep"] (fun _ => 0) (fun _ => 0) "tmp"
    (by decide) (by decide)
    (fun p h0 => by cases h0; decide)

end JC
